import Mathlib

/-!
# Verification of nussl/utils.py

Shallow embedding of the numeric utility routines of nussl/utils.py:
peak detection over 1-D/2-D arrays (find_peak_indices, find_peak_values,
_set_array_zero_indices), the JSON codec for numpy arrays
(json_ready_numpy_array, json_serialize_numpy_array, load_numpy_json,
json_numpy_obj_hook), and mismatched-array addition (add_mismatched_arrays,
add_mismatched_arrays2D).

Modelling conventions:
* Array element values are embedded as exact rationals; numpy float
  arithmetic on the concrete inputs used below is exact, and division by
  zero (NaN in numpy) is kept out of theorem scope by hypotheses.
* A numpy 1-D or 2-D array is a flat row-major buffer (List of rationals)
  together with a shape (List of Nats), mirroring numpy memory layout.
* Python exceptions are an Except String result; the message strings follow
  the exception messages that the interpreter or numpy produce, so that
  distinct failure modes stay distinguishable.
* Raw bytes are Nats (with explicit bounds b < 256 where it matters).
-/

/-! ## Base64 codec

Models Python base64.b64encode / base64.b64decode restricted to what the
JSON array codec exercises: standard alphabet, padding with the equals
character. -/

/-- The standard base64 alphabet, as in Python base64. -/
def b64Alphabet : String := "ABCDEFGHIJKLMNOPQRSTUVWXYZabcdefghijklmnopqrstuvwxyz0123456789+/"

/-- Character for a sextet value (0..63). -/
def b64EncChar (n : Nat) : Char := b64Alphabet.data.getD n '?'

/-- Sextet value of an alphabet character (inverse of b64EncChar on 0..63). -/
def b64DecChar (c : Char) : Nat := b64Alphabet.data.indexOf c

/-- base64-encode a byte list: 3 bytes become 4 alphabet characters, a
trailing 1- or 2-byte group is padded with the equals character, exactly as
Python base64.b64encode does. -/
def b64encodeAux : List Nat → List Char
  | [] => []
  | [b1] => [b64EncChar (b1 / 4), b64EncChar (b1 % 4 * 16), '=', '=']
  | [b1, b2] => [b64EncChar (b1 / 4), b64EncChar (b1 % 4 * 16 + b2 / 16),
      b64EncChar (b2 % 16 * 4), '=']
  | b1 :: b2 :: b3 :: rest =>
      b64EncChar (b1 / 4) :: b64EncChar (b1 % 4 * 16 + b2 / 16) ::
      b64EncChar (b2 % 16 * 4 + b3 / 64) :: b64EncChar (b3 % 64) :: b64encodeAux rest

/-- Python base64.b64encode, producing a text string. -/
def b64encode (bs : List Nat) : String := ⟨b64encodeAux bs⟩

/-- Python base64.b64decode on well-formed base64 text: each 4-character
group yields 3 bytes, with the padding forms yielding 1 or 2 bytes. -/
def b64decodeAux : List Char → List Nat
  | c1 :: c2 :: c3 :: c4 :: rest =>
      if c3 = '=' then [b64DecChar c1 * 4 + b64DecChar c2 / 16]
      else if c4 = '=' then
        [b64DecChar c1 * 4 + b64DecChar c2 / 16,
         b64DecChar c2 % 16 * 16 + b64DecChar c3 / 4]
      else
        (b64DecChar c1 * 4 + b64DecChar c2 / 16) ::
        (b64DecChar c2 % 16 * 16 + b64DecChar c3 / 4) ::
        (b64DecChar c3 % 4 * 64 + b64DecChar c4) ::
        b64decodeAux rest
  | _ => []

/-- Python base64.b64decode on a string. -/
def b64decode (s : String) : List Nat := b64decodeAux s.data

/-! ## JSON codec for numpy arrays

Models json_ready_numpy_array, json_serialize_numpy_array, load_numpy_json
and json_numpy_obj_hook from utils.py. A numpy array is its contiguous
raw-byte buffer plus dtype name and shape. JSON documents are modelled as a
value tree; json.dumps followed by json.loads is the identity on that tree
(the contract of the Python json library), so serialization is represented
by the tree itself and load_numpy_json consumes the tree, applying the
object hook bottom-up over every object exactly as json.loads does. -/

/-- A numpy ndarray: dtype name (str(array.dtype)), shape, and the raw
bytes of its contiguous buffer (np.ascontiguousarray(array).data). -/
structure NpNdarray where
  dtypeName : String
  shape : List Nat
  bytes : List Nat

/-- A Python value as seen by the json module: strings, ints, lists and
dicts, plus the ndarray objects that json_numpy_obj_hook introduces while
decoding. -/
inductive PyVal where
  | str (s : String)
  | int (n : Int)
  | list (elems : List PyVal)
  | dict (fields : List (String × PyVal))
  | ndarray (a : NpNdarray)

/-- Modelled from the spec: the fixed wrapper key constant
(constants.NUMPY_JSON_KEY, whose defining module is not part of the given
sources). The spec fixes only that it is one shared string constant; its
exact text does not matter for the codec round trip. -/
def NUMPY_JSON_KEY : String := "py/numpy.ndarray"

/-- Itemsize in bytes of the supported numeric dtype names, as numpy
reports them. -/
def npDtypeTable : List (String × Nat) :=
  [("float64", 8), ("float32", 4), ("float16", 2),
   ("int64", 8), ("int32", 4), ("int16", 2), ("int8", 1),
   ("uint64", 8), ("uint32", 4), ("uint16", 2), ("uint8", 1),
   ("complex64", 8), ("complex128", 16), ("bool", 1)]

/-- Itemsize of a dtype name; np.frombuffer rejects an unknown name. -/
def npItemsize (dtypeName : String) : Option Nat := npDtypeTable.lookup dtypeName

/-- np.frombuffer(data, dtype): reinterprets raw bytes as a 1-D array of
the given dtype; fails when the dtype is unknown or the buffer size is not
a multiple of the itemsize. -/
def np_frombuffer (data : List Nat) (dtypeName : String) : Option NpNdarray :=
  match npItemsize dtypeName with
  | none => none
  | some sz =>
      if data.length % sz = 0 then some ⟨dtypeName, [data.length / sz], data⟩ else none

/-- ndarray.reshape(shape): succeeds exactly when the element count is
preserved; the buffer is reinterpreted row-major. -/
def np_reshape (a : NpNdarray) (shape : List Nat) : Option NpNdarray :=
  match npItemsize a.dtypeName with
  | none => none
  | some sz => if shape.prod * sz = a.bytes.length then some ⟨a.dtypeName, shape, a.bytes⟩ else none

/-- json_ready_numpy_array: the JSON-compatible record for an ndarray,
base64 payload plus dtype and shape under the fixed wrapper key. (For a
non-array input the source returns None; only the array case is relevant
to the codec.) -/
def json_ready_numpy_array (a : NpNdarray) : PyVal :=
  .dict [(NUMPY_JSON_KEY,
     .dict [("__ndarray__", .str (b64encode a.bytes)),
            ("dtype", .str a.dtypeName),
            ("shape", .list (a.shape.map (fun n => PyVal.int (Int.ofNat n))))])]

/-- json_serialize_numpy_array: json.dumps of the record; the JSON text is
identified with its value tree. -/
def json_serialize_numpy_array (a : NpNdarray) : PyVal :=
  json_ready_numpy_array a

/-- The shape entries of the decoded JSON must be nonnegative ints. -/
def pyShapeOfJson : List PyVal → Option (List Nat)
  | [] => some []
  | PyVal.int n :: rest =>
      if 0 ≤ n then
        match pyShapeOfJson rest with
        | some t => some (n.toNat :: t)
        | none => none
      else none
  | _ => none

/-- json_numpy_obj_hook: when a decoded dict carries the __ndarray__ key,
base64-decode the payload and rebuild the array with np.frombuffer and
reshape; otherwise return the dict unchanged. -/
def json_numpy_obj_hook (fields : List (String × PyVal)) : Option PyVal :=
  match fields.lookup "__ndarray__" with
  | none => some (.dict fields)
  | some v =>
      match v, fields.lookup "dtype", fields.lookup "shape" with
      | .str payload, some (.str dt), some (.list shapeJson) =>
          match pyShapeOfJson shapeJson with
          | some shape =>
              match np_frombuffer (b64decode payload) dt with
              | some flat => (np_reshape flat shape).map PyVal.ndarray
              | none => none
          | none => none
      | _, _, _ => none

mutual
/-- json.loads object_hook application: the hook runs on every decoded
object, innermost first. -/
def applyHook : PyVal → Option PyVal
  | .str s => some (.str s)
  | .int n => some (.int n)
  | .ndarray a => some (.ndarray a)
  | .list elems =>
      match applyHookList elems with
      | some elems2 => some (.list elems2)
      | none => none
  | .dict fields =>
      match applyHookFields fields with
      | some fields2 => json_numpy_obj_hook fields2
      | none => none

def applyHookList : List PyVal → Option (List PyVal)
  | [] => some []
  | v :: rest =>
      match applyHook v, applyHookList rest with
      | some v2, some rest2 => some (v2 :: rest2)
      | _, _ => none

def applyHookFields : List (String × PyVal) → Option (List (String × PyVal))
  | [] => some []
  | (k, v) :: rest =>
      match applyHook v, applyHookFields rest with
      | some v2, some rest2 => some ((k, v2) :: rest2)
      | _, _ => none
end

/-- load_numpy_json: json.loads with json_numpy_obj_hook, then the lookup
of the wrapper key. -/
def load_numpy_json (doc : PyVal) : Option PyVal :=
  match applyHook doc with
  | some (.dict fields) => fields.lookup NUMPY_JSON_KEY
  | _ => none

/-! ## Peak finding

Embedding of find_peak_indices, _set_array_zero_indices, find_peak_values.
The input is a flat row-major buffer plus a shape, as in numpy. Values are
exact rationals standing for the float computation. Python exceptions are
Except.error with the message of the exception Python raises at that point
(for interpreter-generated TypeError or IndexError the message carries the
exception type name to keep the failure modes distinguishable). The
boolean in the result records whether warnings.warn fired. -/

/-- The min_dist argument: a Python int or a tuple of ints. -/
inductive MinDist where
  | int (z : Int)
  | tup (zs : List Int)

/-- Zeroing configuration after the zero_dist assignment block: for 1-D
the raw min_dist is kept (a tuple there only fails later, at the first
subtraction inside the loop, as in Python); for 2-D both per-axis
distances are resolved up front. -/
inductive ZeroCfg where
  | d1 (zd : MinDist)
  | d2 (zd0 zd1 : Int)

/-- Message of the ValueError raised for arrays of more than 2 dimensions. -/
def shapeErrorMsg : String := "Cannot find peak indices on data greater than 2 dimensions!"

/-- Message of the ValueError raised when thresholding removes everything. -/
def thresholdErrorMsg : String := "Threshold set incorrectly. No peaks above threshold."

/-- TypeError from len() on a 0-d array (min_dist defaulting line). -/
def lenErrorMsg : String := "TypeError: len() of unsized object"

/-- ValueError from np.min on an empty array. -/
def zeroSizeErrorMsg : String :=
  "ValueError: zero-size array to reduction operation minimum which has no identity"

/-- ValueError from unpacking a min_dist tuple with fewer than 2 entries. -/
def unpackShortErrorMsg : String := "ValueError: not enough values to unpack (expected 2)"

/-- ValueError from unpacking a min_dist tuple with more than 2 entries. -/
def unpackLongErrorMsg : String := "ValueError: too many values to unpack (expected 2)"

/-- IndexError from reading cur_peak_idx[0] or cur_peak_idx[1] off a short
index tuple. -/
def indexErrorMsg : String := "IndexError: tuple index out of range"

/-- TypeError from index - zero_dist when zero_dist is a tuple (1-D input
given a tuple min_dist). -/
def tupleSubErrorMsg : String := "TypeError: unsupported operand type for -: int and tuple"

/-- np.min of a buffer (0 only as the junk value of the empty case, which
find_peak_indices rejects before use). -/
def listMin : List ℚ → ℚ
  | [] => 0
  | x :: xs => xs.foldl min x

/-- np.max of a buffer. -/
def listMax : List ℚ → ℚ
  | [] => 0
  | x :: xs => xs.foldl max x

/-- The preprocessing block of find_peak_indices: add np.min when the
minimum is negative, subtract it when positive, then divide by np.max.
(This is the literal source behaviour: for a negative minimum the minimum
is added, not subtracted.) -/
def normalize_array (data : List ℚ) : List ℚ :=
  let mn := listMin data
  let shifted :=
    if mn < 0 then data.map (fun x => x + mn)
    else if 0 < mn then data.map (fun x => x - mn)
    else data
  let mx := listMax shifted
  shifted.map (fun x => x / mx)

/-- The shift step of the preprocessing block alone (the array whose
maximum is the divisor of the final division). Naming it lets theorems
require a nonzero divisor, keeping the NaN regime of the float division
by zero outside the exact-rational model. -/
def shifted_array (data : List ℚ) : List ℚ :=
  let mn := listMin data
  if mn < 0 then data.map (fun x => x + mn)
  else if 0 < mn then data.map (fun x => x - mn)
  else data

/-- np.multiply(input_array, (input_array >= threshold)): each value is
multiplied by the 0/1 indicator of clearing the threshold. -/
def threshold_array (arr : List ℚ) (threshold : ℚ) : List ℚ :=
  arr.map (fun x => x * (if threshold ≤ x then 1 else 0))

/-- Number of nonzero entries of a buffer. -/
def countNonzero (arr : List ℚ) : Nat := (arr.filter (fun x => decide (x ≠ 0))).length

/-- np.size(np.nonzero(arr)): np.nonzero returns one index array per
dimension, so the size is ndim times the nonzero count (a 0-d array is
treated as 1-d by np.nonzero). -/
def np_nonzero_size (ndim : Nat) (arr : List ℚ) : Nat := max ndim 1 * countNonzero arr

/-- np.argmax helper: fold keeping the current best index and value; a
later value replaces the best only when strictly greater, so the first
occurrence of the maximum wins. -/
def argmaxAux (best : Nat) (bv : ℚ) (i : Nat) : List ℚ → Nat
  | [] => best
  | x :: xs => if bv < x then argmaxAux i x (i + 1) xs else argmaxAux best bv (i + 1) xs

/-- np.argmax: flat index of the first occurrence of the maximum value. -/
def argmaxList : List ℚ → Nat
  | [] => 0
  | x :: xs => argmaxAux 0 x 1 xs

/-- np.unravel_index over a 1-D or 2-D shape (row-major). -/
def unravel_index (k : Nat) (shape : List Nat) : List Nat :=
  match shape with
  | [_] => [k]
  | [_, c] => [k / c, k % c]
  | _ => []

/-- _set_array_zero_indices from utils.py, verbatim over integers. -/
def _set_array_zero_indices (index zero_distance max_len : Int) : Int × Int :=
  let lower := index - zero_distance - 1
  let upper := index + zero_distance + 1
  let lower2 := if lower < 0 then 0 else lower
  let upper2 := if max_len ≤ upper then max_len else upper
  (lower2, upper2)

/-- Normalize a Python slice endpoint against length n: negative values
wrap from the end, then everything is clamped into 0..n. -/
def pySliceBound (i : Int) (n : Nat) : Nat :=
  (max 0 (if i < 0 then (n : Int) + i else min i (n : Int))).toNat

/-- Zero every position whose index satisfies p, keeping the rest. -/
def zeroWhere (p : Nat → Bool) : List ℚ → Nat → List ℚ
  | [], _ => []
  | x :: xs, j => (if p j then 0 else x) :: zeroWhere p xs (j + 1)

/-- input_array[lower:upper] = 0 on a 1-D buffer, with Python slice
semantics for the endpoints. -/
def pySliceZero (arr : List ℚ) (lower upper : Int) : List ℚ :=
  let l := pySliceBound lower arr.length
  let u := pySliceBound upper arr.length
  zeroWhere (fun j => decide (l ≤ j ∧ j < u)) arr 0

/-- input_array[l0:u0, l1:u1] = 0 on the flat row-major buffer of a 2-D
array with the given row and column counts. -/
def pySliceZero2 (arr : List ℚ) (rows cols : Nat) (l0 u0 l1 u1 : Int) : List ℚ :=
  let a := pySliceBound l0 rows
  let b := pySliceBound u0 rows
  let c := pySliceBound l1 cols
  let d := pySliceBound u1 cols
  zeroWhere (fun k => decide ((a ≤ k / cols ∧ k / cols < b) ∧ (c ≤ k % cols ∧ k % cols < d))) arr 0

/-- The main peak loop of find_peak_indices: up to fuel iterations; find
the argmax, record its unraveled coordinate, zero the suppression window,
stop early when the whole buffer has become zero. Returns the result and
the final state of the working buffer. -/
def peakLoop (shape : List Nat) (zcfg : ZeroCfg) :
    Nat → List ℚ → List (List Nat) → Except String (List (List Nat)) × List ℚ
  | 0, arr, acc => (.ok acc.reverse, arr)
  | fuel + 1, arr, acc =>
    let k := argmaxList arr
    let idx := unravel_index k shape
    match zcfg with
    | .d1 (.tup _) => (.error tupleSubErrorMsg, arr)
    | .d1 (.int z) =>
      match idx.head? with
      | none => (.error indexErrorMsg, arr)
      | some i =>
        let lu := _set_array_zero_indices (i : Int) z (arr.length : Int)
        let arr2 := pySliceZero arr lu.1 lu.2
        if arr2.sum = 0 then (.ok (idx :: acc).reverse, arr2)
        else peakLoop shape zcfg fuel arr2 (idx :: acc)
    | .d2 z0 z1 =>
      match idx.head?, (idx.drop 1).head? with
      | some i0, some i1 =>
        let r := shape.getD 0 0
        let c := shape.getD 1 0
        let lu0 := _set_array_zero_indices (i0 : Int) z0 (r : Int)
        let lu1 := _set_array_zero_indices (i1 : Int) z1 (c : Int)
        let arr2 := pySliceZero2 arr r c lu0.1 lu0.2 lu1.1 lu1.2
        if arr2.sum = 0 then (.ok (idx :: acc).reverse, arr2)
        else peakLoop shape zcfg fuel arr2 (idx :: acc)
      | _, _ => (.error indexErrorMsg, arr)

/-- The min_dist defaulting line: len(input_array) // 4 when None (len of
a 2-D array is its first dimension; len of a 0-d array raises TypeError). -/
def resolveMinDist (shape : List Nat) (min_dist : Option MinDist) : Except String MinDist :=
  match min_dist with
  | some d => .ok d
  | none =>
      match shape.head? with
      | some n => .ok (.int ((n : Int) / 4))
      | none => .error lenErrorMsg

/-- The zero_dist assignment block: 1-D keeps min_dist as is; 2-D accepts
an int or a 1- or 2-tuple and fails unpacking anything else. -/
def resolveZeroCfg (is1d : Bool) (md : MinDist) : Except String ZeroCfg :=
  if is1d then .ok (.d1 md)
  else
    match md with
    | .int z => .ok (.d2 z z)
    | .tup [z] => .ok (.d2 z z)
    | .tup [z0, z1] => .ok (.d2 z0 z1)
    | .tup zs => .error (if zs.length < 2 then unpackShortErrorMsg else unpackLongErrorMsg)

/-- find_peak_indices, with the final state of the internal working buffer
(the fresh array np.array(input_array, dtype=float) makes; every in-place
update of the source targets it) as second component, and the
warnings.warn flag recorded next to the result. -/
def find_peak_indices_st (shape : List Nat) (data : List ℚ) (n_peaks : Nat)
    (min_dist : Option MinDist) (do_min : Bool) (threshold : ℚ) :
    Except String (List (List Nat) × Bool) × List ℚ :=
  if 2 < shape.length then (.error shapeErrorMsg, data)
  else
    match resolveMinDist shape min_dist with
    | .error e => (.error e, data)
    | .ok md =>
      match resolveZeroCfg (decide (shape.length = 1)) md with
      | .error e => (.error e, data)
      | .ok zcfg =>
        if data = [] then (.error zeroSizeErrorMsg, data)
        else
          let arr0 := normalize_array data
          let arr1 := if do_min then arr0.map (fun x => -x) else arr0
          let arr2 := threshold_array arr1 threshold
          if countNonzero arr2 = 0 then (.error thresholdErrorMsg, arr2)
          else
            let warned := decide (np_nonzero_size shape.length arr2 < n_peaks)
            let res := peakLoop shape zcfg n_peaks arr2 []
            (Except.map (fun idxs => (idxs, warned)) res.1, res.2)

/-- find_peak_indices together with the warnings.warn flag. -/
def find_peak_indices_w (shape : List Nat) (data : List ℚ) (n_peaks : Nat)
    (min_dist : Option MinDist) (do_min : Bool) (threshold : ℚ) :
    Except String (List (List Nat) × Bool) :=
  (find_peak_indices_st shape data n_peaks min_dist do_min threshold).1

/-- find_peak_indices from utils.py: the list of peak index tuples. -/
def find_peak_indices (shape : List Nat) (data : List ℚ) (n_peaks : Nat)
    (min_dist : Option MinDist) (do_min : Bool) (threshold : ℚ) :
    Except String (List (List Nat)) :=
  Except.map Prod.fst (find_peak_indices_w shape data n_peaks min_dist do_min threshold)

/-- Reading input_array[idx] for an index tuple, row-major. -/
def indexArr (shape : List Nat) (data : List ℚ) (idx : List Nat) : ℚ :=
  match shape, idx with
  | [_], [i] => data.getD i 0
  | [_, c], [i, j] => data.getD (i * c + j) 0
  | _, _ => 0

/-- find_peak_values from utils.py: the values of the caller-supplied
array at the indices find_peak_indices returns (find_peak_indices works on
its own copy, so these are the original, pre-normalization values). -/
def find_peak_values (shape : List Nat) (data : List ℚ) (n_peaks : Nat)
    (min_dist : Option MinDist) (do_min : Bool) (threshold : ℚ) :
    Except String (List ℚ) :=
  Except.map (fun idxs => idxs.map (indexArr shape data))
    (find_peak_indices shape data n_peaks min_dist do_min threshold)

/-- An index tuple lies inside a 1-D or 2-D shape. -/
def idxInBounds (shape : List Nat) (idx : List Nat) : Bool :=
  match shape, idx with
  | [n], [i] => decide (i < n)
  | [r, c], [i, j] => decide (i < r) && decide (j < c)
  | _, _ => false

/-- The min_dist configurations the docstring admits: None or an int for
1-D, and None, an int or a 1- or 2-tuple for 2-D. -/
def valid_min_dist (shape : List Nat) (min_dist : Option MinDist) : Bool :=
  match shape.length, min_dist with
  | 1, none => true
  | 1, some (.int _) => true
  | 2, none => true
  | 2, some (.int _) => true
  | 2, some (.tup zs) => decide (zs.length = 1 ∨ zs.length = 2)
  | _, _ => false

/-! ## Mismatched-array addition -/

/-- add_mismatched_arrays from utils.py on 1-D arrays (the dtype promotion
of the source does not change values in the exact-rational model). -/
def add_mismatched_arrays (array1 array2 : List ℚ) (truncate : Bool) : List ℚ :=
  if truncate then
    if array1.length < array2.length then
      List.zipWith (fun x y => x + y) array1 (array2.take array1.length)
    else
      List.zipWith (fun x y => x + y) array2 (array1.take array2.length)
  else
    if array1.length < array2.length then
      List.zipWith (fun x y => x + y) array2 array1 ++ array2.drop array1.length
    else
      List.zipWith (fun x y => x + y) array1 array2 ++ array1.drop array2.length

/-- add_mismatched_arrays2D from utils.py: rows are added pairwise, the
merge acts along the second axis (the widths array1.shape[1] and
array2.shape[1] decide the branches). -/
def add_mismatched_arrays2D (array1 array2 : List (List ℚ)) (truncate : Bool) :
    List (List ℚ) :=
  let w1 := (array1.headD []).length
  let w2 := (array2.headD []).length
  if truncate then
    if w1 < w2 then
      List.zipWith (fun r1 r2 => List.zipWith (fun x y => x + y) r1 (r2.take w1)) array1 array2
    else
      List.zipWith (fun r2 r1 => List.zipWith (fun x y => x + y) r2 (r1.take w2)) array2 array1
  else
    if w1 < w2 then
      List.zipWith (fun rl rs => List.zipWith (fun x y => x + y) rl rs ++ rl.drop rs.length)
        array2 array1
    else
      List.zipWith (fun rl rs => List.zipWith (fun x y => x + y) rl rs ++ rl.drop rs.length)
        array1 array2

/-! ## Buffer-store wrappers

The non-mutation contract is stated over an explicit store of buffers:
callers hold indices into the store, a call reads the buffers of its
arguments, and every buffer the source allocates (np.array copies, .copy()
results) is appended at fresh indices, which is where all in-place updates
of the source go. The entries the caller already held are reproduced
unchanged in the resulting store. -/

/-- A store of 1-D numpy buffers. -/
abbrev Store : Type := List (List ℚ)

/-- A store of 2-D numpy arrays (rows of rationals). -/
abbrev Store2 : Type := List (List (List ℚ))

/-- find_peak_indices acting on a store: reads the caller buffer, works on
the fresh copy (appended), and never writes the caller entries. -/
def store_find_peak_indices (store : Store) (ref : Nat) (shape : List Nat) (n_peaks : Nat)
    (min_dist : Option MinDist) (do_min : Bool) (threshold : ℚ) :
    Except String (List (List Nat)) × Store :=
  let caller := store.getD ref []
  let res := find_peak_indices_st shape caller n_peaks min_dist do_min threshold
  (Except.map Prod.fst res.1, store ++ [res.2])

/-- find_peak_values acting on a store: the index search runs on the same
fresh copy; the caller buffer is only read when the values are collected. -/
def store_find_peak_values (store : Store) (ref : Nat) (shape : List Nat) (n_peaks : Nat)
    (min_dist : Option MinDist) (do_min : Bool) (threshold : ℚ) :
    Except String (List ℚ) × Store :=
  let caller := store.getD ref []
  let res := find_peak_indices_st shape caller n_peaks min_dist do_min threshold
  (Except.map (fun p => p.1.map (indexArr shape caller)) res.1, store ++ [res.2])

/-- add_mismatched_arrays acting on a store: both np.array casts copy, the
result is a third fresh buffer; result += only ever writes the result. -/
def store_add_mismatched_arrays (store : Store) (ref1 ref2 : Nat) (truncate : Bool) :
    List ℚ × Store :=
  let a1 := store.getD ref1 []
  let a2 := store.getD ref2 []
  let result := add_mismatched_arrays a1 a2 truncate
  (result, store ++ [a1, a2, result])

/-- add_mismatched_arrays2D acting on a store of 2-D arrays. -/
def store_add_mismatched_arrays2D (store : Store2) (ref1 ref2 : Nat) (truncate : Bool) :
    List (List ℚ) × Store2 :=
  let a1 := store.getD ref1 []
  let a2 := store.getD ref2 []
  let result := add_mismatched_arrays2D a1 a2 truncate
  (result, store ++ [a1, a2, result])

/-! ## Theorems -/

theorem b64DecChar_b64EncChar : ∀ n, n < 64 → b64DecChar (b64EncChar n) = n := by decide

theorem b64EncChar_ne_pad : ∀ n, n < 64 → b64EncChar n ≠ '=' := by decide

theorem b64decodeAux_pad2 (c1 c2 : Char) :
    b64decodeAux [c1, c2, '=', '='] = [b64DecChar c1 * 4 + b64DecChar c2 / 16] := by
  simp [b64decodeAux]

theorem b64decodeAux_pad1 (c1 c2 c3 : Char) (h3 : c3 ≠ '=') :
    b64decodeAux [c1, c2, c3, '='] =
      [b64DecChar c1 * 4 + b64DecChar c2 / 16,
       b64DecChar c2 % 16 * 16 + b64DecChar c3 / 4] := by
  simp [b64decodeAux, h3]

theorem b64decodeAux_full (c1 c2 c3 c4 : Char) (rest : List Char)
    (h3 : c3 ≠ '=') (h4 : c4 ≠ '=') :
    b64decodeAux (c1 :: c2 :: c3 :: c4 :: rest) =
      (b64DecChar c1 * 4 + b64DecChar c2 / 16) ::
      (b64DecChar c2 % 16 * 16 + b64DecChar c3 / 4) ::
      (b64DecChar c3 % 4 * 64 + b64DecChar c4) ::
      b64decodeAux rest := by
  simp [b64decodeAux, h3, h4]

/-- Round trip of the base64 model: decoding an encoded byte list returns
the bytes unchanged. -/
theorem b64decodeAux_b64encodeAux :
    ∀ bs : List Nat, (∀ b ∈ bs, b < 256) → b64decodeAux (b64encodeAux bs) = bs := by
  intro bs
  induction bs using b64encodeAux.induct with
  | case1 => intro _; rfl
  | case2 b1 =>
    intro h
    have hb1 : b1 < 256 := h b1 (by simp)
    simp only [b64encodeAux]
    rw [b64decodeAux_pad2, b64DecChar_b64EncChar _ (by omega),
      b64DecChar_b64EncChar _ (by omega)]
    simp only [List.cons.injEq, and_true]
    omega
  | case3 b1 b2 =>
    intro h
    have hb1 : b1 < 256 := h b1 (by simp)
    have hb2 : b2 < 256 := h b2 (by simp)
    simp only [b64encodeAux]
    rw [b64decodeAux_pad1 _ _ _ (b64EncChar_ne_pad _ (by omega)),
      b64DecChar_b64EncChar _ (by omega), b64DecChar_b64EncChar _ (by omega),
      b64DecChar_b64EncChar _ (by omega)]
    simp only [List.cons.injEq, and_true]
    exact ⟨by omega, by omega⟩
  | case4 b1 b2 b3 rest ih =>
    intro h
    have hb1 : b1 < 256 := h b1 (by simp)
    have hb2 : b2 < 256 := h b2 (by simp)
    have hb3 : b3 < 256 := h b3 (by simp)
    simp only [b64encodeAux]
    rw [b64decodeAux_full _ _ _ _ _ (b64EncChar_ne_pad _ (by omega))
        (b64EncChar_ne_pad _ (by omega)),
      b64DecChar_b64EncChar _ (by omega), b64DecChar_b64EncChar _ (by omega),
      b64DecChar_b64EncChar _ (by omega), b64DecChar_b64EncChar _ (by omega)]
    rw [ih (fun b hb => h b (by simp [hb]))]
    simp only [List.cons.injEq, and_true]
    exact ⟨by omega, by omega, by omega⟩

theorem lookup_pos_of_all_pos :
    ∀ (tbl : List (String × Nat)) (s : String) (n : Nat),
      (∀ p ∈ tbl, 0 < p.2) → tbl.lookup s = some n → 0 < n := by
  intro tbl
  induction tbl with
  | nil => intro s n _ h; exact Option.noConfusion h
  | cons p ts ih =>
    intro s n hall h
    rw [List.lookup] at h
    split at h
    · exact (Option.some.inj h) ▸ hall p (by simp)
    · exact ih s n (fun q hq => hall q (by simp [hq])) h

theorem npItemsize_pos (s : String) (n : Nat) (h : npItemsize s = some n) : 0 < n :=
  lookup_pos_of_all_pos npDtypeTable s n (by decide) h

theorem applyHookList_map_int (l : List Nat) :
    applyHookList (l.map (fun n => PyVal.int (Int.ofNat n))) =
      some (l.map (fun n => PyVal.int (Int.ofNat n))) := by
  induction l with
  | nil => rfl
  | cons x xs ih => simp only [List.map_cons, applyHookList, applyHook, ih]

theorem pyShapeOfJson_map_int (l : List Nat) :
    pyShapeOfJson (l.map (fun n => PyVal.int (Int.ofNat n))) = some l := by
  induction l with
  | nil => rfl
  | cons x xs ih =>
    simp only [List.map_cons, pyShapeOfJson, ih]
    simp

theorem claim_C2_roundtrip (a : NpNdarray) (sz : Nat)
    (hdt : npItemsize a.dtypeName = some sz)
    (hlen : a.bytes.length = sz * a.shape.prod)
    (hbytes : ∀ b ∈ a.bytes, b < 256) :
    load_numpy_json (json_serialize_numpy_array a) = some (.ndarray a) := by
  have e1 : (("dtype" == "__ndarray__") = false) := by decide
  have e2 : (("shape" == "__ndarray__") = false) := by decide
  have e3 : (("shape" == "dtype") = false) := by decide
  have e4 : (("__ndarray__" == NUMPY_JSON_KEY) = false) := by decide
  have e5 : ((NUMPY_JSON_KEY == NUMPY_JSON_KEY) = true) := by decide
  have hb64 : b64decode (b64encode a.bytes) = a.bytes :=
    b64decodeAux_b64encodeAux a.bytes hbytes
  have hfrom : np_frombuffer (b64decode (b64encode a.bytes)) a.dtypeName =
      some ⟨a.dtypeName, [a.bytes.length / sz], a.bytes⟩ := by
    simp only [hb64, np_frombuffer, hdt]
    rw [if_pos (by rw [hlen]; exact Nat.mul_mod_right sz _)]
  have hresh : np_reshape ⟨a.dtypeName, [a.bytes.length / sz], a.bytes⟩ a.shape = some a := by
    simp only [np_reshape, hdt]
    rw [if_pos (by rw [hlen, Nat.mul_comm])]
  have hhook : json_numpy_obj_hook
      [("__ndarray__", .str (b64encode a.bytes)),
       ("dtype", .str a.dtypeName),
       ("shape", .list (a.shape.map (fun n => PyVal.int (Int.ofNat n))))] = some (.ndarray a) := by
    simp only [json_numpy_obj_hook, List.lookup, e1, e2, e3, beq_self_eq_true]
    simp only [pyShapeOfJson_map_int, hfrom, hresh]
    rfl
  have hinner : applyHook (.dict
      [("__ndarray__", .str (b64encode a.bytes)),
       ("dtype", .str a.dtypeName),
       ("shape", .list (a.shape.map (fun n => PyVal.int (Int.ofNat n))))]) = some (.ndarray a) := by
    rw [applyHook]
    simp only [applyHookFields, applyHook, applyHookList_map_int, hhook]
  simp only [load_numpy_json, json_serialize_numpy_array, json_ready_numpy_array]
  rw [applyHook]
  simp only [applyHookFields, hinner, json_numpy_obj_hook, List.lookup, e4, e5]

theorem claim_C2_roundtrip_witness :
    npItemsize "uint8" = some 1 ∧ ([1, 2, 3] : List Nat).length = 1 * ([3] : List Nat).prod ∧
      load_numpy_json (json_serialize_numpy_array ⟨"uint8", [3], [1, 2, 3]⟩) =
        some (.ndarray ⟨"uint8", [3], [1, 2, 3]⟩) :=
  ⟨rfl, rfl, claim_C2_roundtrip ⟨"uint8", [3], [1, 2, 3]⟩ 1 rfl rfl (by decide)⟩

/-- C1 (code bug evidence). On input [-1, 3] the preprocessing of
find_peak_indices adds the negative minimum instead of shifting it to 0:
the shifted data is [-2, 2], and after dividing by the maximum the result
is [-1, 1], whose minimum is -1, not 0, and whose first element lies
outside [0, 1]. -/
theorem claim_C1_normalize_bug :
    normalize_array [-1, 3] = [-1, 1] ∧ listMin (normalize_array [-1, 3]) = -1 ∧
      ¬ (0 : ℚ) ≤ -1 := by
  norm_num [normalize_array, listMin, listMax, min_def, max_def]

theorem zeroWhere_length (p : Nat → Bool) :
    ∀ (xs : List ℚ) (j : Nat), (zeroWhere p xs j).length = xs.length := by
  intro xs
  induction xs with
  | nil => intro j; rfl
  | cons x xs ih => intro j; simp [zeroWhere, ih]

theorem zeroWhere_getD (p : Nat → Bool) :
    ∀ (xs : List ℚ) (j0 j : Nat), j < xs.length →
      (zeroWhere p xs j0).getD j 0 = if p (j0 + j) then 0 else xs.getD j 0 := by
  intro xs
  induction xs with
  | nil => intro j0 j h; simp at h
  | cons x xs ih =>
    intro j0 j h
    cases j with
    | zero => simp [zeroWhere]
    | succ k =>
      have hk : k < xs.length := by simpa using h
      simp only [zeroWhere, List.getD_cons_succ]
      rw [ih (j0 + 1) k hk]
      have harg : j0 + 1 + k = j0 + (k + 1) := by omega
      rw [harg]

theorem argmaxAux_spec (l : List ℚ) :
    ∀ (xs : List ℚ) (i best : Nat) (bv : ℚ),
      i ≤ l.length → xs = l.drop i → best < i → l.getD best 0 = bv →
      (∀ j, j < i → l.getD j 0 ≤ bv) → (∀ j, j < best → l.getD j 0 < bv) →
      (argmaxAux best bv i xs < l.length ∧
       (∀ j, j < l.length → l.getD j 0 ≤ l.getD (argmaxAux best bv i xs) 0) ∧
       (∀ j, j < argmaxAux best bv i xs → l.getD j 0 < l.getD (argmaxAux best bv i xs) 0)) := by
  intro xs
  induction xs with
  | nil =>
    intro i best bv hi hxs hbest hval hle hlt
    have hlen : l.length ≤ i := by
      by_contra hc
      push_neg at hc
      rw [List.drop_eq_getElem_cons hc] at hxs
      exact List.noConfusion hxs
    have hil : i = l.length := le_antisymm hi hlen
    refine ⟨by simpa [argmaxAux] using hbest.trans_le hi, ?_, ?_⟩
    · intro j hj
      rw [show argmaxAux best bv i [] = best from rfl, hval]
      exact hle j (by omega)
    · intro j hj
      rw [show argmaxAux best bv i [] = best from rfl] at hj ⊢
      rw [hval]
      exact hlt j hj
  | cons x rest ih =>
    intro i best bv hi hxs hbest hval hle hlt
    have hil : i < l.length := by
      by_contra hc
      push_neg at hc
      rw [List.drop_eq_nil_of_le hc] at hxs
      exact List.noConfusion hxs
    have hx : x = l.getD i 0 := by
      rw [List.drop_eq_getElem_cons hil] at hxs
      rw [List.getD_eq_getElem l 0 hil]
      exact (List.cons.inj hxs).1
    have hrest : rest = l.drop (i + 1) := by
      rw [List.drop_eq_getElem_cons hil] at hxs
      exact (List.cons.inj hxs).2
    rw [show argmaxAux best bv i (x :: rest) =
        (if bv < x then argmaxAux i x (i + 1) rest else argmaxAux best bv (i + 1) rest) from rfl]
    by_cases hcmp : bv < x
    · rw [if_pos hcmp]
      refine ih (i + 1) i x (by omega) hrest (by omega) hx.symm ?_ ?_
      · intro j hj
        rcases Nat.lt_succ_iff_lt_or_eq.mp hj with hj2 | hj2
        · exact le_of_lt ((hle j hj2).trans_lt hcmp)
        · rw [hj2, ← hx]
      · intro j hj
        exact (hle j hj).trans_lt hcmp
    · rw [if_neg hcmp]
      push_neg at hcmp
      refine ih (i + 1) best bv (by omega) hrest (by omega) hval ?_ hlt
      intro j hj
      rcases Nat.lt_succ_iff_lt_or_eq.mp hj with hj2 | hj2
      · exact hle j hj2
      · rw [hj2, ← hx]; exact hcmp

/-- np.argmax of a nonempty buffer: in bounds, carries the maximum value,
and every strictly earlier position holds a strictly smaller value (ties
are broken by the first occurrence in flat row-major order). -/
theorem argmaxList_spec (l : List ℚ) (h : l ≠ []) :
    argmaxList l < l.length ∧
    (∀ j, j < l.length → l.getD j 0 ≤ l.getD (argmaxList l) 0) ∧
    (∀ j, j < argmaxList l → l.getD j 0 < l.getD (argmaxList l) 0) := by
  cases l with
  | nil => exact absurd rfl h
  | cons x xs =>
    have hspec := argmaxAux_spec (x :: xs) xs 1 0 x (by simp) (by simp) (by omega)
      (by simp) ?_ ?_
    · simpa [argmaxList] using hspec
    · intro j hj
      have hj0 : j = 0 := by omega
      simp [hj0]
    · intro j hj
      omega

/-- C5. The suppression helper returns exactly the clipped window:
_set_array_zero_indices(index, w, max_len) = (max 0 (index - w - 1),
min max_len (index + w + 1)); the recorded coordinate is the first
occurrence of the maximum in row-major order; and zeroing with those
bounds zeroes exactly the clipped index range, leaving every other
element unchanged. -/
theorem claim_C5_suppression :
    (∀ index zero_distance max_len : Int,
      _set_array_zero_indices index zero_distance max_len =
        (max 0 (index - zero_distance - 1), min max_len (index + zero_distance + 1)))
    ∧ (∀ l : List ℚ, l ≠ [] →
        argmaxList l < l.length ∧
        (∀ j, j < l.length → l.getD j 0 ≤ l.getD (argmaxList l) 0) ∧
        (∀ j, j < argmaxList l → l.getD j 0 < l.getD (argmaxList l) 0))
    ∧ (∀ (arr : List ℚ) (i : Nat) (z : Int), i < arr.length → 0 ≤ z →
        ∀ j, j < arr.length →
          (pySliceZero arr (max 0 ((i : Int) - z - 1))
              (min (arr.length : Int) ((i : Int) + z + 1))).getD j 0 =
            if max 0 ((i : Int) - z - 1) ≤ (j : Int) ∧
                (j : Int) < min (arr.length : Int) ((i : Int) + z + 1)
            then 0 else arr.getD j 0) := by
  refine ⟨?_, argmaxList_spec, ?_⟩
  · intro index zero_distance max_len
    simp only [_set_array_zero_indices, Prod.mk.injEq]
    constructor
    · split_ifs <;> omega
    · split_ifs <;> omega
  · intro arr i z hi hz j hj
    have hL0 : (0 : Int) ≤ max 0 ((i : Int) - z - 1) := le_max_left 0 _
    have hLn : max 0 ((i : Int) - z - 1) ≤ (arr.length : Int) := by
      refine max_le (by omega) (by omega)
    have hU0 : (0 : Int) ≤ min (arr.length : Int) ((i : Int) + z + 1) := by
      refine le_min (by omega) (by omega)
    have hUn : min (arr.length : Int) ((i : Int) + z + 1) ≤ (arr.length : Int) :=
      min_le_left _ _
    have hb1 : pySliceBound (max 0 ((i : Int) - z - 1)) arr.length =
        (max 0 ((i : Int) - z - 1)).toNat := by
      simp only [pySliceBound]
      rw [if_neg (by omega), min_eq_left hLn, max_eq_right hL0]
    have hb2 : pySliceBound (min (arr.length : Int) ((i : Int) + z + 1)) arr.length =
        (min (arr.length : Int) ((i : Int) + z + 1)).toNat := by
      simp only [pySliceBound]
      rw [if_neg (by omega), min_eq_left hUn, max_eq_right hU0]
    simp only [pySliceZero, hb1, hb2]
    rw [zeroWhere_getD _ arr 0 j hj]
    simp only [Nat.zero_add, decide_eq_true_eq]
    have hiff : ∀ L U : Int, 0 ≤ L → 0 ≤ U →
        ((L.toNat ≤ j ∧ j < U.toNat) ↔ (L ≤ (j : Int) ∧ (j : Int) < U)) := by
      intro L U h1 h2
      omega
    rw [if_congr (hiff _ _ hL0 hU0) rfl rfl]

theorem claim_C5_suppression_witness :
    _set_array_zero_indices 5 1 10 = (3, 7) ∧
      (pySliceZero [3, 1, 4, 1, 5] (max 0 ((2 : Int) - 1 - 1))
          (min ((5 : Nat) : Int) ((2 : Int) + 1 + 1))).getD 4 0 = 5 := by
  constructor
  · rw [claim_C5_suppression.1 5 1 10]
    norm_num
  · exact (claim_C5_suppression.2.2 [3, 1, 4, 1, 5] 2 1 (by norm_num) (by norm_num) 4
      (by norm_num)).trans (by norm_num [min_def, max_def, List.getD])

theorem pySliceZero_length (arr : List ℚ) (lo hi : Int) :
    (pySliceZero arr lo hi).length = arr.length := by
  simp [pySliceZero, zeroWhere_length]

theorem pySliceZero2_length (arr : List ℚ) (r c : Nat) (l0 u0 l1 u1 : Int) :
    (pySliceZero2 arr r c l0 u0 l1 u1).length = arr.length := by
  simp [pySliceZero2, zeroWhere_length]

theorem resolveMinDist_error (shape : List Nat) (md : Option MinDist) (e : String)
    (h : resolveMinDist shape md = .error e) : e = lenErrorMsg := by
  unfold resolveMinDist at h
  rcases md with _ | d
  · rcases shape with _ | ⟨n, rest⟩
    · exact (Except.error.inj h).symm
    · exact Except.noConfusion h
  · exact Except.noConfusion h

theorem resolveZeroCfg_error (is1d : Bool) (md : MinDist) (e : String)
    (h : resolveZeroCfg is1d md = .error e) :
    e = unpackShortErrorMsg ∨ e = unpackLongErrorMsg := by
  unfold resolveZeroCfg at h
  rcases is1d with _ | _
  · simp only [Bool.false_eq_true, if_false] at h
    rcases md with z | zs
    · exact Except.noConfusion h
    · match zs, h with
      | [], h => exact Or.inl (Except.error.inj h).symm
      | [z], h => exact Except.noConfusion h
      | [z0, z1], h => exact Except.noConfusion h
      | z0 :: z1 :: z2 :: rest, h =>
        refine Or.inr ?_
        have h2 := (Except.error.inj h).symm
        simpa using h2
  · simp only [if_true] at h
    exact Except.noConfusion h

theorem peakLoop_error (shape : List Nat) (zcfg : ZeroCfg) :
    ∀ (fuel : Nat) (arr : List ℚ) (acc : List (List Nat)) (e : String),
      (peakLoop shape zcfg fuel arr acc).1 = .error e →
      e = tupleSubErrorMsg ∨ e = indexErrorMsg := by
  intro fuel
  induction fuel with
  | zero => intro arr acc e h; exact Except.noConfusion h
  | succ n ih =>
    intro arr acc e h
    simp only [peakLoop] at h
    repeat' split at h
    all_goals
      first
        | exact Or.inl (Except.error.inj h).symm
        | exact Or.inr (Except.error.inj h).symm
        | exact Except.noConfusion h
        | exact ih _ _ _ h

theorem peakLoop_ok_1d (n : Nat) (z : Int) :
    ∀ (fuel : Nat) (arr : List ℚ) (acc : List (List Nat)),
      ∃ out, (peakLoop [n] (.d1 (.int z)) fuel arr acc).1 = .ok out := by
  intro fuel
  induction fuel with
  | zero => intro arr acc; exact ⟨acc.reverse, rfl⟩
  | succ m ih =>
    intro arr acc
    simp only [peakLoop, unravel_index, List.head?_cons]
    split
    · exact ⟨_, rfl⟩
    · exact ih _ _

theorem peakLoop_ok_2d (r c : Nat) (z0 z1 : Int) :
    ∀ (fuel : Nat) (arr : List ℚ) (acc : List (List Nat)),
      ∃ out, (peakLoop [r, c] (.d2 z0 z1) fuel arr acc).1 = .ok out := by
  intro fuel
  induction fuel with
  | zero => intro arr acc; exact ⟨acc.reverse, rfl⟩
  | succ m ih =>
    intro arr acc
    simp only [peakLoop, unravel_index, List.drop_succ_cons, List.drop_zero, List.head?_cons]
    split
    · exact ⟨_, rfl⟩
    · exact ih _ _

theorem peakLoop_rank0 (zcfg : ZeroCfg) (fuel : Nat) (arr : List ℚ) (acc : List (List Nat))
    (out : List (List Nat)) (h : (peakLoop [] zcfg fuel arr acc).1 = .ok out) :
    out = acc.reverse := by
  cases fuel with
  | zero => exact (Except.ok.inj h).symm
  | succ m =>
    simp only [peakLoop, unravel_index, List.head?_nil] at h
    repeat' split at h
    all_goals exact Except.noConfusion h

theorem peakLoop_bounds_1d (n : Nat) (z : Int) :
    ∀ (fuel : Nat) (arr : List ℚ) (acc out : List (List Nat)),
      arr.length = n → 0 < n →
      (∀ idx ∈ acc, idxInBounds [n] idx = true) →
      (peakLoop [n] (.d1 (.int z)) fuel arr acc).1 = .ok out →
      ∀ idx ∈ out, idxInBounds [n] idx = true := by
  intro fuel
  induction fuel with
  | zero =>
    intro arr acc out hlen hn hacc h idx hidx
    rw [← Except.ok.inj h] at hidx
    exact hacc idx (List.mem_reverse.mp hidx)
  | succ m ih =>
    intro arr acc out hlen hn hacc h idx hidx
    have hne : arr ≠ [] := by
      intro hc
      rw [hc] at hlen
      simp at hlen
      omega
    have hargm : argmaxList arr < n := hlen ▸ (argmaxList_spec arr hne).1
    have hbound : idxInBounds [n] [argmaxList arr] = true := by
      simp [idxInBounds, hargm]
    have hacc2 : ∀ idx2 ∈ [argmaxList arr] :: acc, idxInBounds [n] idx2 = true := by
      intro idx2 h2
      rcases List.mem_cons.mp h2 with h3 | h3
      · rw [h3]; exact hbound
      · exact hacc idx2 h3
    simp only [peakLoop, unravel_index, List.head?_cons] at h
    split at h
    · rw [← Except.ok.inj h] at hidx
      exact hacc2 idx (List.mem_reverse.mp hidx)
    · exact ih _ _ _ (by rw [pySliceZero_length]; exact hlen) hn hacc2 h idx hidx

theorem peakLoop_bounds_2d (r c : Nat) (z0 z1 : Int) :
    ∀ (fuel : Nat) (arr : List ℚ) (acc out : List (List Nat)),
      arr.length = r * c → 0 < r * c →
      (∀ idx ∈ acc, idxInBounds [r, c] idx = true) →
      (peakLoop [r, c] (.d2 z0 z1) fuel arr acc).1 = .ok out →
      ∀ idx ∈ out, idxInBounds [r, c] idx = true := by
  intro fuel
  induction fuel with
  | zero =>
    intro arr acc out hlen hn hacc h idx hidx
    rw [← Except.ok.inj h] at hidx
    exact hacc idx (List.mem_reverse.mp hidx)
  | succ m ih =>
    intro arr acc out hlen hn hacc h idx hidx
    have hne : arr ≠ [] := by
      refine List.length_pos.mp ?_
      rw [hlen]
      exact hn
    have hc0 : 0 < c := by
      rcases Nat.eq_zero_or_pos c with h0 | h0
      · rw [h0] at hn; omega
      · exact h0
    have hargm : argmaxList arr < r * c := hlen ▸ (argmaxList_spec arr hne).1
    have hdiv : argmaxList arr / c < r := by
      rw [Nat.div_lt_iff_lt_mul hc0]
      exact hargm
    have hmod : argmaxList arr % c < c := Nat.mod_lt _ hc0
    have hbound : idxInBounds [r, c] [argmaxList arr / c, argmaxList arr % c] = true := by
      simp [idxInBounds, hdiv, hmod]
    have hacc2 : ∀ idx2 ∈ [argmaxList arr / c, argmaxList arr % c] :: acc,
        idxInBounds [r, c] idx2 = true := by
      intro idx2 h2
      rcases List.mem_cons.mp h2 with h3 | h3
      · rw [h3]; exact hbound
      · exact hacc idx2 h3
    simp only [peakLoop, unravel_index, List.drop_succ_cons, List.drop_zero,
      List.head?_cons] at h
    split at h
    · rw [← Except.ok.inj h] at hidx
      exact hacc2 idx (List.mem_reverse.mp hidx)
    · exact ih _ _ _ (by rw [pySliceZero2_length]; exact hlen) hn hacc2 h idx hidx

theorem normalize_array_length (data : List ℚ) :
    (normalize_array data).length = data.length := by
  simp only [normalize_array, List.length_map]
  split_ifs <;> simp

theorem threshold_array_length (arr : List ℚ) (t : ℚ) :
    (threshold_array arr t).length = arr.length := by
  simp [threshold_array]

/-- normalize_array is exactly the division of the shifted array by its
maximum, so the hypothesis listMax (shifted_array data) ≠ 0 states
precisely that the normalization divisor is nonzero. -/
theorem normalize_array_eq_shifted (data : List ℚ) :
    normalize_array data =
      (shifted_array data).map (fun x => x / listMax (shifted_array data)) := rfl

theorem threshold_array_getD (arr : List ℚ) (t : ℚ) (j : Nat) (hj : j < arr.length) :
    (threshold_array arr t).getD j 0 = if t ≤ arr.getD j 0 then arr.getD j 0 else 0 := by
  unfold threshold_array
  rw [List.getD_eq_getElem _ _ (by simpa using hj), List.getElem_map,
    List.getD_eq_getElem _ _ hj]
  split_ifs <;> ring

theorem resolve_valid_1d (shape : List Nat) (md : Option MinDist)
    (hsh : shape.length = 1) (hmd : valid_min_dist shape md = true) :
    ∃ z : Int, resolveMinDist shape md = .ok (.int z) ∧
      resolveZeroCfg (decide (shape.length = 1)) (.int z) = .ok (.d1 (.int z)) := by
  rcases shape with _ | ⟨n, rest⟩
  · simp at hsh
  · have hr : rest = [] := by simpa using hsh
    subst hr
    rcases md with _ | d
    · exact ⟨(n : Int) / 4, rfl, rfl⟩
    · rcases d with z | zs
      · exact ⟨z, rfl, rfl⟩
      · simp [valid_min_dist] at hmd

theorem resolve_valid_2d (shape : List Nat) (md : Option MinDist)
    (hsh : shape.length = 2) (hmd : valid_min_dist shape md = true) :
    ∃ md2, resolveMinDist shape md = .ok md2 ∧
      ∃ z0 z1 : Int, resolveZeroCfg (decide (shape.length = 1)) md2 = .ok (.d2 z0 z1) := by
  rcases shape with _ | ⟨a, rest⟩
  · simp at hsh
  · rcases rest with _ | ⟨b, rest2⟩
    · simp at hsh
    · have hr : rest2 = [] := by simpa using hsh
      subst hr
      rcases md with _ | d
      · exact ⟨.int ((a : Int) / 4), rfl, (a : Int) / 4, (a : Int) / 4, rfl⟩
      · rcases d with z | zs
        · exact ⟨.int z, rfl, z, z, rfl⟩
        · have hv : zs.length = 1 ∨ zs.length = 2 := by
            simpa [valid_min_dist] using hmd
          match zs, hv with
          | [z], _ => exact ⟨.tup [z], rfl, z, z, rfl⟩
          | [z0, z1], _ => exact ⟨.tup [z0, z1], rfl, z0, z1, rfl⟩
          | [], hv => simp at hv
          | z0 :: z1 :: z2 :: r, hv =>
            rcases hv with hv | hv <;> simp at hv

theorem find_peak_indices_valid_reduces (shape : List Nat) (data : List ℚ) (n_peaks : Nat)
    (min_dist : Option MinDist) (do_min : Bool) (threshold : ℚ)
    (hsh : shape.length = 1 ∨ shape.length = 2) (hne : data ≠ [])
    (hmd : valid_min_dist shape min_dist = true) :
    (countNonzero (threshold_array
        (if do_min then (normalize_array data).map (fun x => -x) else normalize_array data)
        threshold) = 0 →
      find_peak_indices shape data n_peaks min_dist do_min threshold =
        .error thresholdErrorMsg)
    ∧ (countNonzero (threshold_array
        (if do_min then (normalize_array data).map (fun x => -x) else normalize_array data)
        threshold) ≠ 0 →
      ∃ out, find_peak_indices shape data n_peaks min_dist do_min threshold = .ok out) := by
  rcases hsh with hsh | hsh
  · obtain ⟨z, hres, hzc⟩ := resolve_valid_1d shape min_dist hsh hmd
    rcases shape with _ | ⟨n, rest⟩
    · simp at hsh
    · have hr : rest = [] := by simpa using hsh
      subst hr
      constructor
      · intro hc
        simp only [find_peak_indices, find_peak_indices_w, find_peak_indices_st, hres, hzc]
        rw [if_neg (show ¬ 2 < List.length [n] by simp), if_neg hne, if_pos hc]
        rfl
      · intro hc
        simp only [find_peak_indices, find_peak_indices_w, find_peak_indices_st, hres, hzc]
        rw [if_neg (show ¬ 2 < List.length [n] by simp), if_neg hne, if_neg hc]
        obtain ⟨out, hout⟩ := peakLoop_ok_1d n z n_peaks
          (threshold_array
            (if do_min then (normalize_array data).map (fun x => -x) else normalize_array data)
            threshold) []
        rw [hout]
        exact ⟨out, rfl⟩
  · obtain ⟨md2, hres, z0, z1, hzc⟩ := resolve_valid_2d shape min_dist hsh hmd
    rcases shape with _ | ⟨a, rest⟩
    · simp at hsh
    · rcases rest with _ | ⟨b, rest2⟩
      · simp at hsh
      · have hr : rest2 = [] := by simpa using hsh
        subst hr
        constructor
        · intro hc
          simp only [find_peak_indices, find_peak_indices_w, find_peak_indices_st, hres, hzc]
          rw [if_neg (show ¬ 2 < List.length [a, b] by simp), if_neg hne, if_pos hc]
          rfl
        · intro hc
          simp only [find_peak_indices, find_peak_indices_w, find_peak_indices_st, hres, hzc]
          rw [if_neg (show ¬ 2 < List.length [a, b] by simp), if_neg hne, if_neg hc]
          obtain ⟨out, hout⟩ := peakLoop_ok_2d a b z0 z1 n_peaks
            (threshold_array
              (if do_min then (normalize_array data).map (fun x => -x) else normalize_array data)
              threshold) []
          rw [hout]
          exact ⟨out, rfl⟩

/-- C4. After normalization (and negation for min-search) find_peak_indices
zeroes exactly the elements strictly below threshold, raises the
"no peaks above threshold" ValueError iff no nonzero element survives
thresholding, and returns a result (no error) whenever a nonzero element
survives (for well-formed rank and min_dist arguments on nonempty data
whose shifted maximum, the divisor of the normalization, is nonzero: when
that divisor is zero numpy divides by 0.0 and continues on NaNs, a regime
outside the exact-rational model). -/
theorem claim_C4_threshold (shape : List Nat) (data : List ℚ) (n_peaks : Nat)
    (min_dist : Option MinDist) (do_min : Bool) (threshold : ℚ)
    (hsh : shape.length = 1 ∨ shape.length = 2) (hne : data ≠ [])
    (hmd : valid_min_dist shape min_dist = true)
    (hmx : listMax (shifted_array data) ≠ 0) :
    (find_peak_indices shape data n_peaks min_dist do_min threshold = .error thresholdErrorMsg
      ↔ countNonzero (threshold_array
          (if do_min then (normalize_array data).map (fun x => -x) else normalize_array data)
          threshold) = 0)
    ∧ (∀ j, j < data.length →
        (threshold_array
          (if do_min then (normalize_array data).map (fun x => -x) else normalize_array data)
          threshold).getD j 0 =
        if threshold ≤ (if do_min then (normalize_array data).map (fun x => -x)
            else normalize_array data).getD j 0
        then (if do_min then (normalize_array data).map (fun x => -x)
            else normalize_array data).getD j 0
        else 0)
    ∧ (countNonzero (threshold_array
          (if do_min then (normalize_array data).map (fun x => -x) else normalize_array data)
          threshold) ≠ 0 →
        ∃ out, find_peak_indices shape data n_peaks min_dist do_min threshold = .ok out) := by
  obtain ⟨hred1, hred2⟩ := find_peak_indices_valid_reduces shape data n_peaks min_dist do_min
    threshold hsh hne hmd
  refine ⟨⟨?_, hred1⟩, ?_, hred2⟩
  · intro h
    by_contra hc
    obtain ⟨out, hout⟩ := hred2 hc
    rw [hout] at h
    exact Except.noConfusion h
  · intro j hj
    refine threshold_array_getD _ _ j ?_
    cases do_min <;> simp [normalize_array_length, hj]

theorem claim_C4_threshold_witness :
    ∃ out, find_peak_indices [4] [0, 1, 0, 2] 1 (some (.int 1)) false (1/2) = .ok out := by
  refine (claim_C4_threshold [4] [0, 1, 0, 2] 1 (some (.int 1)) false (1/2)
    (Or.inl rfl) (by simp) rfl
    (by norm_num [shifted_array, listMin, listMax, min_def, max_def])).2.2 ?_
  norm_num [countNonzero, threshold_array, normalize_array, listMin, listMax, min_def,
    max_def, List.filter]

/-- C3 (counterexample). A 0-d input (shape (), one scalar cell) is not
rejected by the rank check: with min_dist left at None the call fails with
the TypeError from len() instead of the rank ValueError. -/
theorem claim_C3_counterexample :
    find_peak_indices [] [-3] 1 none false (1/2) = .error lenErrorMsg ∧
      lenErrorMsg ≠ shapeErrorMsg := by
  constructor
  · rfl
  · decide

theorem find_peak_indices_st_no_shape_error (shape : List Nat) (data : List ℚ)
    (n_peaks : Nat) (min_dist : Option MinDist) (do_min : Bool) (threshold : ℚ)
    (hs : ¬ 2 < shape.length) :
    (find_peak_indices_st shape data n_peaks min_dist do_min threshold).1 ≠
      .error shapeErrorMsg := by
  intro h
  unfold find_peak_indices_st at h
  rw [if_neg hs] at h
  rcases hr : resolveMinDist shape min_dist with e | md
  · simp only [hr] at h
    have he := resolveMinDist_error shape min_dist e hr
    rw [he] at h
    exact absurd (Except.error.inj h) (by decide)
  · simp only [hr] at h
    rcases hz : resolveZeroCfg (decide (shape.length = 1)) md with e | zcfg
    · simp only [hz] at h
      rcases resolveZeroCfg_error _ _ _ hz with he | he <;> rw [he] at h <;>
        exact absurd (Except.error.inj h) (by decide)
    · simp only [hz] at h
      by_cases hd : data = []
      · rw [if_pos hd] at h
        exact absurd (Except.error.inj h) (by decide)
      · rw [if_neg hd] at h
        by_cases hc : countNonzero (threshold_array
            (if do_min then (normalize_array data).map (fun x => -x) else normalize_array data)
            threshold) = 0
        · rw [if_pos hc] at h
          exact absurd (Except.error.inj h) (by decide)
        · rw [if_neg hc] at h
          rcases hp : (peakLoop shape zcfg n_peaks (threshold_array
              (if do_min then (normalize_array data).map (fun x => -x) else normalize_array data)
              threshold) []).1 with e2 | o
          · simp only [hp, Except.map] at h
            rcases peakLoop_error shape zcfg n_peaks _ _ e2 hp with he | he <;> rw [he] at h <;>
              exact absurd (Except.error.inj h) (by decide)
          · simp only [hp, Except.map] at h
            exact Except.noConfusion h

/-- C3 (amended). find_peak_indices raises the rank ValueError exactly for
inputs of more than 2 dimensions; any other failure of the function
carries a different error, so 0-d, 1-D and 2-D inputs never receive the
rank error (a 0-d input passes the rank check and fails later, e.g. with
the len() TypeError). -/
theorem claim_C3_rank_check (shape : List Nat) (data : List ℚ) (n_peaks : Nat)
    (min_dist : Option MinDist) (do_min : Bool) (threshold : ℚ) :
    find_peak_indices shape data n_peaks min_dist do_min threshold = .error shapeErrorMsg
      ↔ 2 < shape.length := by
  constructor
  · intro h
    by_contra hs
    have hst : (find_peak_indices_st shape data n_peaks min_dist do_min threshold).1 =
        .error shapeErrorMsg := by
      rcases hw : (find_peak_indices_st shape data n_peaks min_dist do_min threshold).1
        with e | o
      · rw [find_peak_indices, find_peak_indices_w, hw] at h
        simp only [Except.map] at h
        exact congrArg Except.error (Except.error.inj h)
      · exfalso
        rw [find_peak_indices, find_peak_indices_w, hw] at h
        simp only [Except.map] at h
        exact Except.noConfusion h
    exact find_peak_indices_st_no_shape_error shape data n_peaks min_dist do_min threshold
      hs hst
  · intro hs
    rw [find_peak_indices, find_peak_indices_w, find_peak_indices_st, if_pos hs]
    rfl

theorem peakLoop_d1tup (shape : List Nat) (zs : List Int) (fuel : Nat) (arr : List ℚ)
    (acc out : List (List Nat))
    (h : (peakLoop shape (.d1 (.tup zs)) fuel arr acc).1 = .ok out) :
    out = acc.reverse := by
  cases fuel with
  | zero => exact (Except.ok.inj h).symm
  | succ m =>
    simp only [peakLoop] at h
    exact Except.noConfusion h

theorem find_peak_indices_ok_inv (shape : List Nat) (data : List ℚ) (n_peaks : Nat)
    (min_dist : Option MinDist) (do_min : Bool) (threshold : ℚ) (out : List (List Nat))
    (h : find_peak_indices shape data n_peaks min_dist do_min threshold = .ok out) :
    shape.length ≤ 2 ∧ data ≠ [] ∧
    ∃ md2 zcfg,
      resolveMinDist shape min_dist = .ok md2 ∧
      resolveZeroCfg (decide (shape.length = 1)) md2 = .ok zcfg ∧
      (peakLoop shape zcfg n_peaks (threshold_array
          (if do_min then (normalize_array data).map (fun x => -x) else normalize_array data)
          threshold) []).1 = .ok out := by
  rw [find_peak_indices, find_peak_indices_w] at h
  unfold find_peak_indices_st at h
  by_cases hs : 2 < shape.length
  · rw [if_pos hs] at h
    simp only [Except.map] at h
    exact Except.noConfusion h
  · rw [if_neg hs] at h
    rcases hr : resolveMinDist shape min_dist with e | md2
    · simp only [hr, Except.map] at h
      exact Except.noConfusion h
    · simp only [hr] at h
      rcases hz : resolveZeroCfg (decide (shape.length = 1)) md2 with e | zcfg
      · simp only [hz, Except.map] at h
        exact Except.noConfusion h
      · simp only [hz] at h
        by_cases hd : data = []
        · rw [if_pos hd] at h
          simp only [Except.map] at h
          exact Except.noConfusion h
        · rw [if_neg hd] at h
          by_cases hc : countNonzero (threshold_array
              (if do_min then (normalize_array data).map (fun x => -x)
                else normalize_array data) threshold) = 0
          · rw [if_pos hc] at h
            simp only [Except.map] at h
            exact Except.noConfusion h
          · rw [if_neg hc] at h
            rcases hp : (peakLoop shape zcfg n_peaks (threshold_array
                (if do_min then (normalize_array data).map (fun x => -x)
                  else normalize_array data) threshold) []).1 with e2 | o
            · simp only [hp, Except.map] at h
              exact Except.noConfusion h
            · simp only [hp, Except.map] at h
              refine ⟨by omega, hd, md2, zcfg, rfl, hz, ?_⟩
              rw [hp]
              exact congrArg Except.ok (Except.ok.inj h)

theorem resolveZeroCfg_false_d2 (md2 : MinDist) (zcfg : ZeroCfg)
    (h : resolveZeroCfg false md2 = .ok zcfg) : ∃ z0 z1 : Int, zcfg = .d2 z0 z1 := by
  rcases md2 with z | zs
  · exact ⟨z, z, (Except.ok.inj h).symm⟩
  · match zs, h with
    | [z], h => exact ⟨z, z, (Except.ok.inj h).symm⟩
    | [z0, z1], h => exact ⟨z0, z1, (Except.ok.inj h).symm⟩
    | [], h => exact Except.noConfusion h
    | z0 :: z1 :: z2 :: r, h => exact Except.noConfusion h

/-- C6. When find_peak_indices succeeds, find_peak_values with identical
parameters returns exactly the values of the caller-supplied (original,
pre-normalization) array at the coordinates find_peak_indices returns, in
the same order; every returned coordinate lies inside the array, so those
reads are genuine indexing. -/
theorem claim_C6_values (shape : List Nat) (data : List ℚ) (n_peaks : Nat)
    (min_dist : Option MinDist) (do_min : Bool) (threshold : ℚ) (idxs : List (List Nat))
    (hlen : data.length = shape.prod)
    (h : find_peak_indices shape data n_peaks min_dist do_min threshold = .ok idxs) :
    find_peak_values shape data n_peaks min_dist do_min threshold =
      .ok (idxs.map (indexArr shape data)) ∧
    ∀ idx ∈ idxs, idxInBounds shape idx = true := by
  refine ⟨by rw [find_peak_values, h]; rfl, ?_⟩
  obtain ⟨hs, hd, md2, zcfg, hr, hz, hp⟩ :=
    find_peak_indices_ok_inv shape data n_peaks min_dist do_min threshold idxs h
  have hlen2 : (threshold_array
      (if do_min then (normalize_array data).map (fun x => -x) else normalize_array data)
      threshold).length = data.length := by
    cases do_min <;> simp [threshold_array_length, normalize_array_length]
  have hpos : 0 < data.length := List.length_pos.mpr hd
  rcases shape with _ | ⟨n, rest⟩
  · have hout := peakLoop_rank0 zcfg n_peaks _ [] idxs hp
    intro idx hidx
    rw [hout] at hidx
    simp at hidx
  · rcases rest with _ | ⟨m, rest2⟩
    · have hz2 : ZeroCfg.d1 md2 = zcfg := Except.ok.inj hz
      rw [← hz2] at hp
      simp only [List.prod_cons, List.prod_nil, Nat.mul_one] at hlen
      rcases md2 with z | zs
      · exact peakLoop_bounds_1d n z n_peaks _ [] idxs (by rw [hlen2, hlen]) (by omega)
          (by simp) hp
      · have hout := peakLoop_d1tup [n] zs n_peaks _ [] idxs hp
        intro idx hidx
        rw [hout] at hidx
        simp at hidx
    · have hr2 : rest2 = [] := by
        have hlen3 : rest2.length = 0 := by
          simp only [List.length_cons] at hs
          omega
        exact List.length_eq_zero.mp hlen3
      subst hr2
      obtain ⟨z0, z1, hz2⟩ := resolveZeroCfg_false_d2 md2 zcfg hz
      subst hz2
      simp only [List.prod_cons, List.prod_nil, Nat.mul_one] at hlen
      exact peakLoop_bounds_2d n m z0 z1 n_peaks _ [] idxs (by rw [hlen2, hlen]) (by omega)
        (by simp) hp

theorem claim_C6_values_witness :
    find_peak_values [4] [0, 10, 0, 6] 2 (some (.int 0)) false (1/2) = .ok [10, 6] := by
  have hidx : find_peak_indices [4] [0, 10, 0, 6] 2 (some (.int 0)) false (1/2) =
      .ok [[1], [3]] := by
    norm_num [find_peak_indices, find_peak_indices_w, find_peak_indices_st, resolveMinDist,
      resolveZeroCfg, normalize_array, threshold_array, countNonzero, np_nonzero_size,
      peakLoop, argmaxList, argmaxAux, listMin, listMax, unravel_index,
      _set_array_zero_indices, pySliceZero, pySliceBound, zeroWhere, min_def, max_def,
      Except.map, List.cons_ne_nil]
  exact (claim_C6_values [4] [0, 10, 0, 6] 2 (some (.int 0)) false (1/2) [[1], [3]]
    (by norm_num) hidx).1.trans (by norm_num [indexArr, List.getD])

theorem zipWith_add_getD (a b : List ℚ) (j : Nat) (hja : j < a.length) (hjb : j < b.length) :
    (List.zipWith (fun x y => x + y) a b).getD j 0 = a.getD j 0 + b.getD j 0 := by
  rw [List.getD_eq_getElem _ _ (by rw [List.length_zipWith]; omega), List.getElem_zipWith,
    List.getD_eq_getElem _ _ hja, List.getD_eq_getElem _ _ hjb]

/-- C7. add_mismatched_arrays with truncate returns the elementwise sum on
the overlapping prefix at the length of the shorter input; without
truncate it returns the longer length, the elementwise sum on the overlap,
and the values of the longer input on the trailing tail; in particular on
[1,2,3] and [10,20] it returns [11,22,3] (no truncate) and [11,22]
(truncate). -/
theorem claim_C7_add_mismatched :
    (∀ a b : List ℚ,
      ((add_mismatched_arrays a b true).length = min a.length b.length ∧
        ∀ j, j < min a.length b.length →
          (add_mismatched_arrays a b true).getD j 0 = a.getD j 0 + b.getD j 0) ∧
      ((add_mismatched_arrays a b false).length = max a.length b.length ∧
        (∀ j, j < min a.length b.length →
          (add_mismatched_arrays a b false).getD j 0 = a.getD j 0 + b.getD j 0) ∧
        (∀ j, min a.length b.length ≤ j → j < max a.length b.length →
          (add_mismatched_arrays a b false).getD j 0 =
            (if a.length < b.length then b else a).getD j 0)))
    ∧ add_mismatched_arrays [1, 2, 3] [10, 20] false = [11, 22, 3]
    ∧ add_mismatched_arrays [1, 2, 3] [10, 20] true = [11, 22] := by
  have htrue : ∀ a b : List ℚ, add_mismatched_arrays a b true =
      if a.length < b.length then List.zipWith (fun x y => x + y) a (b.take a.length)
      else List.zipWith (fun x y => x + y) b (a.take b.length) := fun a b => rfl
  have hfalse : ∀ a b : List ℚ, add_mismatched_arrays a b false =
      if a.length < b.length then
        List.zipWith (fun x y => x + y) b a ++ b.drop a.length
      else List.zipWith (fun x y => x + y) a b ++ a.drop b.length := fun a b => rfl
  refine ⟨?_, by norm_num [add_mismatched_arrays], by norm_num [add_mismatched_arrays]⟩
  intro a b
  rw [htrue, hfalse]
  by_cases hab : a.length < b.length
  · simp only [if_pos hab]
    refine ⟨⟨?_, ?_⟩, ?_, ?_, ?_⟩
    · rw [List.length_zipWith, List.length_take]
      omega
    · intro j hj
      have hjb : j < (b.take a.length).length := by
        rw [List.length_take]
        omega
      rw [List.getD_eq_getElem _ _ (by rw [List.length_zipWith, List.length_take]; omega),
        List.getElem_zipWith, List.getD_eq_getElem _ _ (by omega),
        List.getD_eq_getElem _ _ (by omega : j < b.length)]
      congr 1
      exact List.getElem_take _
    · rw [List.length_append, List.length_zipWith, List.length_drop]
      omega
    · intro j hj
      rw [List.getD_append _ _ _ _ (by rw [List.length_zipWith]; omega)]
      rw [zipWith_add_getD b a j (by omega) (by omega)]
      ring
    · intro j hj1 hj2
      rw [List.getD_append_right _ _ _ _ (by rw [List.length_zipWith]; omega)]
      rw [List.length_zipWith]
      have hmin : min b.length a.length = a.length := by omega
      rw [hmin]
      rw [List.getD_eq_getElem _ _ (by rw [List.length_drop]; omega),
        List.getElem_drop, List.getD_eq_getElem _ _ (by omega)]
      congr 1
      omega
  · simp only [if_neg hab]
    refine ⟨⟨?_, ?_⟩, ?_, ?_, ?_⟩
    · rw [List.length_zipWith, List.length_take]
      omega
    · intro j hj
      have hjt : j < (a.take b.length).length := by
        rw [List.length_take]
        omega
      have htake : (a.take b.length).getD j 0 = a.getD j 0 := by
        rw [List.getD_eq_getElem _ _ hjt, List.getD_eq_getElem _ _ (by omega : j < a.length)]
        exact List.getElem_take _
      rw [zipWith_add_getD b (a.take b.length) j (by omega) hjt, htake]
      ring
    · rw [List.length_append, List.length_zipWith, List.length_drop]
      omega
    · intro j hj
      rw [List.getD_append _ _ _ _ (by rw [List.length_zipWith]; omega)]
      exact zipWith_add_getD a b j (by omega) (by omega)
    · intro j hj1 hj2
      rw [List.getD_append_right _ _ _ _ (by rw [List.length_zipWith]; omega)]
      rw [List.length_zipWith]
      have hmin : min a.length b.length = b.length := by omega
      rw [hmin]
      rw [List.getD_eq_getElem _ _ (by rw [List.length_drop]; omega),
        List.getElem_drop, List.getD_eq_getElem _ _ (by omega)]
      congr 1
      omega

theorem claim_C7_add_mismatched_witness :
    (add_mismatched_arrays [5] [7] true).getD 0 0 = 12 := by
  have h := ((claim_C7_add_mismatched.1 [5] [7]).1).2 0 (by norm_num)
  rw [h]
  norm_num [List.getD]

/-- C10. add_mismatched_arrays is commutative in its two array arguments
for both values of the truncate flag. -/
theorem claim_C10_commutative (a b : List ℚ) (truncate : Bool) :
    add_mismatched_arrays a b truncate = add_mismatched_arrays b a truncate := by
  have htrue : ∀ a b : List ℚ, add_mismatched_arrays a b true =
      if a.length < b.length then List.zipWith (fun x y => x + y) a (b.take a.length)
      else List.zipWith (fun x y => x + y) b (a.take b.length) := fun a b => rfl
  have hfalse : ∀ a b : List ℚ, add_mismatched_arrays a b false =
      if a.length < b.length then
        List.zipWith (fun x y => x + y) b a ++ b.drop a.length
      else List.zipWith (fun x y => x + y) a b ++ a.drop b.length := fun a b => rfl
  cases truncate
  · rw [hfalse, hfalse]
    rcases Nat.lt_trichotomy a.length b.length with h | h | h
    · rw [if_pos h, if_neg (by omega)]
    · rw [if_neg (by omega), if_neg (by omega),
        List.zipWith_comm_of_comm _ (fun x y => by ring) a b,
        show a.drop b.length = ([] : List ℚ) from by rw [← h]; exact List.drop_length a,
        show b.drop a.length = ([] : List ℚ) from by rw [h]; exact List.drop_length b]
    · rw [if_neg (by omega), if_pos h]
  · rw [htrue, htrue]
    rcases Nat.lt_trichotomy a.length b.length with h | h | h
    · rw [if_pos h, if_neg (by omega)]
    · rw [if_neg (by omega), if_neg (by omega),
        show a.take b.length = a from by rw [← h]; exact List.take_length a,
        show b.take a.length = b from by rw [h]; exact List.take_length b]
      exact List.zipWith_comm_of_comm _ (fun x y => by ring) b a
    · rw [if_neg (by omega), if_pos h]

/-- C9 (code bug evidence). On the 2-D input [[10,0],[0,10]] with
n_peaks = 3 only 2 nonzero candidates survive thresholding, yet no warning
fires: the code compares np.size(np.nonzero(arr)) = ndim * count = 4
against n_peaks instead of the count 2, so for 2-D inputs it under-warns. -/
theorem claim_C9_warning_bug :
    find_peak_indices_w [2, 2] [10, 0, 0, 10] 3 (some (.int 0)) false (1/2) =
      .ok ([[0, 0], [1, 1]], false)
    ∧ countNonzero (threshold_array (normalize_array [10, 0, 0, 10]) (1/2)) = 2
    ∧ np_nonzero_size 2 (threshold_array (normalize_array [10, 0, 0, 10]) (1/2)) = 4
    ∧ (2 : Nat) < 3 := by
  refine ⟨?_, ?_, ?_, by omega⟩
  · norm_num [find_peak_indices_w, find_peak_indices_st, resolveMinDist, resolveZeroCfg,
      normalize_array, threshold_array, countNonzero, np_nonzero_size, peakLoop,
      argmaxList, argmaxAux, listMin, listMax, unravel_index, _set_array_zero_indices,
      pySliceZero2, pySliceBound, zeroWhere, min_def, max_def, Except.map,
      List.cons_ne_nil, List.filter]
  · norm_num [countNonzero, threshold_array, normalize_array, listMin, listMax, min_def,
      max_def, List.filter]
  · norm_num [np_nonzero_size, countNonzero, threshold_array, normalize_array, listMin,
      listMax, min_def, max_def, List.filter]

/-- C8. Stated over an explicit store of buffers: find_peak_indices,
find_peak_values, add_mismatched_arrays and add_mismatched_arrays2D only
allocate fresh buffers (the np.array casts and copies of the source, where
every in-place update goes); every buffer the caller already held is
unchanged in the store each call returns. -/
theorem claim_C8_no_mutation :
    (∀ (store : Store) (ref : Nat) (shape : List Nat) (n_peaks : Nat)
        (min_dist : Option MinDist) (do_min : Bool) (threshold : ℚ) (i : Nat),
      i < store.length →
      ((store_find_peak_indices store ref shape n_peaks min_dist do_min threshold).2.getD i []
          = store.getD i [] ∧
        (store_find_peak_values store ref shape n_peaks min_dist do_min threshold).2.getD i []
          = store.getD i []))
    ∧ (∀ (store : Store) (ref1 ref2 : Nat) (truncate : Bool) (i : Nat),
      i < store.length →
      (store_add_mismatched_arrays store ref1 ref2 truncate).2.getD i [] = store.getD i [])
    ∧ (∀ (store : Store2) (ref1 ref2 : Nat) (truncate : Bool) (i : Nat),
      i < store.length →
      (store_add_mismatched_arrays2D store ref1 ref2 truncate).2.getD i [] =
        store.getD i []) := by
  refine ⟨?_, ?_, ?_⟩
  · intro store ref shape n_peaks min_dist do_min threshold i hi
    exact ⟨List.getD_append _ _ _ _ hi, List.getD_append _ _ _ _ hi⟩
  · intro store ref1 ref2 truncate i hi
    exact List.getD_append _ _ _ _ hi
  · intro store ref1 ref2 truncate i hi
    exact List.getD_append _ _ _ _ hi

theorem claim_C8_no_mutation_witness :
    (store_add_mismatched_arrays [[1, 2]] 0 0 false).2.getD 0 [] = [1, 2] := by
  have h := claim_C8_no_mutation.2.1 [[1, 2]] 0 0 false 0 (by norm_num)
  exact h.trans (by rfl)
